import Mathlib

/-!
Verification development for the r2-image-compressor repository.

The repository is a small Express service that accepts an uploaded image,
produces two WebP derivatives (a width-bounded "full" rendition and a
thumbnail), stores both in an S3-compatible object store, and returns the
object keys.  The definitions below are a shallow embedding of the
relevant source code:

* `sanitizeBaseName`, `isAllowedKey`, and the `app.post` upload handler of
  the main variant (`src/unnamed/part_000`);
* the owner-scoped `/upload` key derivation and the `/download-token`
  route of the second variant (`src/index.js`).

External collaborators (the sharp image library and multer's body-size
limit enforcement) are not part of the repository source; their behaviour
is modelled from the specification where a claim needs it, and each such
definition is marked `Modelled from the spec:` in its doc comment.
Effectful collaborators (the transcoder and the storage port) are passed
to the pipeline as explicit function parameters, and the pipeline result
records the attempted put calls and the successfully stored objects so
that persistence and partial-failure behaviour can be stated.
-/

/-- Characters allowed by the sanitizing regex `[^a-zA-Z0-9._-]+` of
`sanitizeBaseName` in `src/unnamed/part_000`. -/
def isSafeChar (c : Char) : Bool :=
  c.isAlpha || c.isDigit || c == '.' || c == '_' || c == '-'

/-- ASCII whitespace, the character class `\s` of the regex
`/\s+/g` used by the owner-scoped upload route in `src/index.js`. -/
def jsWhitespace (c : Char) : Bool :=
  c == ' ' || c == '\t' || c == '\n' || c == '\r' || c == '\x0b' || c == '\x0c'

/-- `listStartsWith p l` is JavaScript's `l.startsWith(p)` on character
lists. -/
def listStartsWith : List Char → List Char → Bool
  | [], _ => true
  | _ :: _, [] => false
  | c :: cs, d :: ds => c == d && listStartsWith cs ds

/-- `replaceRuns p inRun l` is JavaScript's
`l.replace(/[p]+/g, '_')`: every maximal run of characters satisfying
`p` is replaced by a single `'_'`.  The Boolean flag records whether the
previous character was part of such a run (so that the run contributes
only one `'_'`).  The replacement itself starts with the flag `false`. -/
def replaceRuns (p : Char → Bool) : Bool → List Char → List Char
  | _, [] => []
  | inRun, c :: cs =>
    if p c then
      (if inRun then replaceRuns p true cs else '_' :: replaceRuns p true cs)
    else c :: replaceRuns p false cs

/-- `noAdjRun p l` holds when no two adjacent characters of `l` both
satisfy `p`; under this condition run-collapsing replacement and
per-character replacement agree. -/
def noAdjRun (p : Char → Bool) : List Char → Bool
  | a :: b :: rest => (!(p a && p b)) && noAdjRun p (b :: rest)
  | _ => true

/-- Run-collapsing replacement stated the way the amended claim words
it, written independently of `replaceRuns`: the maximal run of
characters satisfying `p` at the head is replaced by one `'_'` and
processing resumes after the run.  Used to characterize the sanitizer's
regex unconditionally. -/
def specRunCollapse (p : Char → Bool) : List Char → List Char
  | [] => []
  | c :: cs =>
    if p c then '_' :: specRunCollapse p (cs.dropWhile p)
    else c :: specRunCollapse p cs
termination_by l => l.length
decreasing_by
  · simp only [List.length_cons]
    exact Nat.lt_succ_of_le (List.dropWhile_sublist p).length_le
  · simp only [List.length_cons]
    omega

/-- JavaScript's `key.includes('..')` on character lists: does the list
contain two consecutive dots anywhere? -/
def containsDotDot : List Char → Bool
  | [] => false
  | c :: cs => listStartsWith ['.', '.'] (c :: cs) || containsDotDot cs

/-- The basename step of Node's `path.parse`: drop any trailing `'/'`
characters, then keep the part after the last remaining `'/'`. -/
def basenameChars (l : List Char) : List Char :=
  ((l.reverse.dropWhile (fun c => c == '/')).takeWhile (fun c => c != '/')).reverse

/-- The `name` field of Node's `path.parse` applied to a basename `b`:
the extension (from the last dot) is stripped unless the last dot is the
first character of the basename or the basename is exactly `".."`. -/
def nodeName (b : List Char) : List Char :=
  match b.reverse.findIdx? (fun c => c == '.') with
  | none => b
  | some r =>
    if b.length - 1 - r = 0 then b
    else if b = ['.', '.'] then b
    else b.take (b.length - 1 - r)

/-- `path.parse(original).name` for a full original filename. -/
def nodeNameOf (original : String) : List Char :=
  nodeName (basenameChars original.data)

/-- `sanitizeBaseName` from `src/unnamed/part_000`:
`path.parse(original).name || 'image'`, then
`.replace(/[^a-zA-Z0-9._-]+/g, '_')`. -/
def sanitizeBaseName (original : String) : String :=
  let base := if nodeNameOf original = [] then "image".data else nodeNameOf original
  ⟨replaceRuns (fun c => !isSafeChar c) false base⟩

/-- The sanitization exactly as claim C4 words it: every single character
outside `[A-Za-z0-9._-]` is replaced by one `'_'` (no collapsing of
runs), and an empty result defaults to `"image"`.  Stated from the
claim's words, to be compared with `sanitizeBaseName` from the source. -/
def specPerCharSanitize (original : String) : String :=
  let repl := (nodeNameOf original).map (fun c => if isSafeChar c then c else '_')
  if repl = [] then "image" else ⟨repl⟩

/-- The base-name cleaning of the owner-scoped `/upload` route in
`src/index.js`: `path.parse(file.originalname).name.replace(/\s+/g, '_')`
(note: no `'image'` default and only whitespace is replaced). -/
def ownerBaseName (original : String) : String :=
  ⟨replaceRuns jsWhitespace false (nodeNameOf original)⟩

/-- `fileName` of the unowned upload handler in `src/unnamed/part_000`:
`` `${stamp}-${base}.webp` ``. -/
def fileNameOf (original : String) (stamp : Nat) : String :=
  toString stamp ++ "-" ++ sanitizeBaseName original ++ ".webp"

/-- The full-tier storage key `` `full/${fileName}` ``. -/
def fullKeyOf (original : String) (stamp : Nat) : String :=
  "full/" ++ fileNameOf original stamp

/-- The thumbnail-tier storage key `` `thumbnails/${fileName}` ``. -/
def thumbKeyOf (original : String) (stamp : Nat) : String :=
  "thumbnails/" ++ fileNameOf original stamp

/-- `keyBase` of the owner-scoped `/upload` route in `src/index.js`:
`` `users/${userId}/${stamp}-${rid}-${baseName}` ``, where `rid` is the
random hex suffix produced by `randomId(6)`. -/
def ownerKeyBase (userId original : String) (stamp : Nat) (rid : String) : String :=
  "users/" ++ userId ++ "/" ++ toString stamp ++ "-" ++ rid ++ "-" ++ ownerBaseName original

/-- The two owner-scoped object keys `` `${keyBase}.full.webp` `` and
`` `${keyBase}.thumb.webp` ``. -/
def ownerKeys (userId original : String) (stamp : Nat) (rid : String) : String × String :=
  (ownerKeyBase userId original stamp rid ++ ".full.webp",
   ownerKeyBase userId original stamp rid ++ ".thumb.webp")

/-- The owner-scoped unique base exactly as claim C5 words it: the short
random hex suffix is appended AFTER the sanitized name.  Stated from the
claim's words, to be compared with `ownerKeyBase` from the source. -/
def ownerKeyBaseClaimed (userId original : String) (stamp : Nat) (rid : String) : String :=
  "users/" ++ userId ++ "/" ++ toString stamp ++ "-" ++ ownerBaseName original ++ "-" ++ rid

/-- `ALLOWED_PREFIXES` from `src/unnamed/part_000`. -/
def ALLOWED_PREFIXES : List String := ["full/", "thumbnails/"]

/-- `isAllowedKey` from `src/unnamed/part_000`.  The argument is `none`
when the read-back query carries no string key (JavaScript's
`typeof key !== 'string'` branch, which also covers the `key = ''`
default parameter being replaced by a non-string). -/
def isAllowedKey : Option String → Bool
  | none => false
  | some key =>
    if containsDotDot key.data then false
    else ALLOWED_PREFIXES.any (fun p => listStartsWith p.data key.data)

/-- A derivative profile: the options the upload handler passes to the
sharp resize/encode chain for one tier. -/
structure Profile where
  width : Nat
  withoutEnlargement : Bool
  quality : Nat
deriving DecidableEq

/-- The options of the full-tier sharp call in `src/unnamed/part_000`:
`.resize({ width: 1080, withoutEnlargement: true })`, quality 75. -/
def fullProfile : Profile := ⟨1080, true, 75⟩

/-- The options of the thumbnail-tier sharp call in
`src/unnamed/part_000`: `.resize({ width: 300 })` — note that
`withoutEnlargement` is NOT passed, so it keeps sharp's default
`false` — quality 70. -/
def thumbProfile : Profile := ⟨300, false, 70⟩

/-- Modelled from the spec: the dimension behaviour of sharp's
`resize({ width, withoutEnlargement })` (the sharp library itself is not
under `src/`; the option values above are from the source).  The width is
constrained to `p.width` preserving aspect ratio; when
`withoutEnlargement` is set and the source is already narrow enough the
image is left unchanged; otherwise the width becomes exactly `p.width`
and the height is scaled proportionally, rounded to nearest. -/
def resizeDims (srcW srcH : Nat) (p : Profile) : Nat × Nat :=
  if p.withoutEnlargement = true ∧ srcW ≤ p.width then (srcW, srcH)
  else (p.width, (2 * srcH * p.width + srcW) / (2 * srcW))

/-- `req.file` as handed to the handler by multer: original filename,
declared content type, and the raw bytes. -/
structure UploadFile where
  originalname : String
  mimetype : String
  buffer : List Nat
deriving DecidableEq

/-- The stage at which a pipeline run failed. -/
inductive Stage
  | validation
  | transcodeFull
  | storeFull
  | transcodeThumb
  | storeThumb
deriving DecidableEq

/-- Result of one transcoder invocation (sharp decode + resize + WebP
encode): the output bytes, or the message of the thrown error. -/
inductive TransResult
  | ok (out : List Nat)
  | err (msg : String)
deriving DecidableEq

/-- Result of one storage-port put call: success, or the message of the
thrown error. -/
inductive PutResult
  | ok
  | err (msg : String)
deriving DecidableEq

/-- The outcome of the upload handler: the two keys on success, or the
failing stage together with the error message. -/
inductive PipelineStatus
  | ok (fullKey thumbKey : String)
  | failed (stage : Stage) (cause : String)
deriving DecidableEq

/-- A pipeline run together with its observable storage effects:
`putCalls` lists the keys of attempted put calls in order, and `stored`
lists the objects whose put succeeded (key and body). -/
structure PipelineResult where
  status : PipelineStatus
  putCalls : List String
  stored : List (String × List Nat)
deriving DecidableEq

/-- The content-type allow-list `allowed` of the upload handler in
`src/unnamed/part_000`. -/
def allowedTypes : List String :=
  ["image/jpeg", "image/png", "image/webp", "image/avif", "image/heic", "image/heif"]

/-- The `app.post('/')` upload handler of `src/unnamed/part_000` with its
two effectful collaborators passed explicitly: `tc` is the transcoder
(sharp chain) and `put` is the storage port, indexed by call order
(`put 0` stores the full rendition, `put 1` the thumbnail).  The handler
checks file presence and the declared content type, derives the keys,
then transcodes and stores the full rendition followed by the thumbnail;
the first thrown error aborts the rest (there is no rollback and no
delete call anywhere in the handler). -/
def runPipeline (tc : List Nat → Profile → TransResult) (put : Nat → PutResult)
    (file? : Option UploadFile) (stamp : Nat) : PipelineResult :=
  match file? with
  | none => ⟨.failed .validation "No file uploaded", [], []⟩
  | some f =>
    if f.mimetype ≠ "" ∧ f.mimetype ∉ allowedTypes then
      ⟨.failed .validation ("Unsupported content type: " ++ f.mimetype), [], []⟩
    else
      match tc f.buffer fullProfile with
      | .err e => ⟨.failed .transcodeFull e, [], []⟩
      | .ok fullBuf =>
        match put 0 with
        | .err e => ⟨.failed .storeFull e, [fullKeyOf f.originalname stamp], []⟩
        | .ok =>
          match tc f.buffer thumbProfile with
          | .err e =>
            ⟨.failed .transcodeThumb e, [fullKeyOf f.originalname stamp],
             [(fullKeyOf f.originalname stamp, fullBuf)]⟩
          | .ok thumbBuf =>
            match put 1 with
            | .err e =>
              ⟨.failed .storeThumb e,
               [fullKeyOf f.originalname stamp, thumbKeyOf f.originalname stamp],
               [(fullKeyOf f.originalname stamp, fullBuf)]⟩
            | .ok =>
              ⟨.ok (fullKeyOf f.originalname stamp) (thumbKeyOf f.originalname stamp),
               [fullKeyOf f.originalname stamp, thumbKeyOf f.originalname stamp],
               [(fullKeyOf f.originalname stamp, fullBuf),
                (thumbKeyOf f.originalname stamp, thumbBuf)]⟩

/-- The multer `fileSize` limit configured in `src/unnamed/part_000`:
`15 * 1024 * 1024` bytes. -/
def maxFileSize : Nat := 15 * 1024 * 1024

/-- Modelled from the spec: multer's enforcement of the configured
`fileSize` limit (the multer library is not under `src/`; the limit value
`maxFileSize` is from the source).  A body at most the limit is admitted
to the handler; a larger one is rejected before the handler runs. -/
def multerAccepts (byteLength : Nat) : Bool :=
  byteLength ≤ maxFileSize

/-- The upload route as deployed: multer's size gate in front of the
handler.  An over-limit upload is rejected as `PayloadTooLarge` (the
spec's name for the rejection) with no put calls. -/
def gatedPipeline (tc : List Nat → Profile → TransResult) (put : Nat → PutResult)
    (file? : Option UploadFile) (stamp : Nat) : PipelineResult :=
  match file? with
  | none => runPipeline tc put none stamp
  | some f =>
    if multerAccepts f.buffer.length then runPipeline tc put (some f) stamp
    else ⟨.failed .validation "PayloadTooLarge", [], []⟩

/-- The JSON body of the handler's HTTP response. -/
inductive HttpBody
  | failure (error : String)
  | success (fullKey thumbKey : String)
deriving DecidableEq

/-- The HTTP status and body the handler in `src/unnamed/part_000`
produces from a pipeline outcome: validation rejections are returned
directly with status 400 and their specific message; every caught
internal error is returned with status 500 and
`err.message || 'Server error'`. -/
def handlerResponse (r : PipelineResult) : Nat × HttpBody :=
  match r.status with
  | .ok f t => (200, .success f t)
  | .failed .validation m => (400, .failure m)
  | .failed _ m => (500, .failure (if m = "" then "Server error" else m))

/-- A request to the `/download-token` route of `src/index.js`: the
`X-User-Id` header (if present) and the string `key` of the JSON body
(`none` when the key is missing or not a string). -/
structure TokenReq where
  userIdHeader : Option String
  bodyKey : Option String
deriving DecidableEq

/-- `getUserId` from `src/index.js`: `req.header('X-User-Id') || null`
(an empty header value is falsy and becomes `null`). -/
def getUserId (h : Option String) : Option String :=
  match h with
  | none => none
  | some s => if s = "" then none else some s

/-- The outcome of the `/download-token` route: 401, 400, 403, or a
signed token with its JWT payload fields (`sub`, `key`, `scope`). -/
inductive TokenResp
  | unauthorized
  | badRequest (msg : String)
  | forbidden
  | issued (sub : String) (key : String) (scope : String)
deriving DecidableEq

/-- The `app.post('/download-token')` handler of `src/index.js`: 401
without a user id, 400 for a missing/empty/non-string key, 403 when the
key does not start with `users/<userId>/`, and otherwise a token signed
over `{ sub: userId, key, scope: 'read:image' }`. -/
def downloadToken (req : TokenReq) : TokenResp :=
  match getUserId req.userIdHeader with
  | none => .unauthorized
  | some uid =>
    match req.bodyKey with
    | none => .badRequest "Missing \"key\""
    | some key =>
      if key = "" then .badRequest "Missing \"key\""
      else if listStartsWith ("users/" ++ uid ++ "/").data key.data then
        .issued uid key "read:image"
      else .forbidden

/-- A transcoder that fails on an empty input buffer (as sharp does) and
otherwise echoes the bytes. -/
def tcEmptyFails : List Nat → Profile → TransResult :=
  fun b _ => if b = [] then .err "Input buffer is empty" else .ok b

/-- A transcoder that fails on the thumbnail profile only. -/
def tcThumbFails : List Nat → Profile → TransResult :=
  fun b p => if p = thumbProfile then .err "thumbnail decode failed" else .ok b

/-- A transcoder that always succeeds, echoing the bytes. -/
def tcOk : List Nat → Profile → TransResult :=
  fun b _ => .ok b

/-- A storage port that always succeeds. -/
def putOk : Nat → PutResult :=
  fun _ => .ok

/-- A storage port whose first put succeeds and whose second fails with a
detailed internal message. -/
def putSecondFails : Nat → PutResult :=
  fun i => if i = 0 then .ok else .err "R2 auth failed: secret-access-key"

example : sanitizeBaseName "My Photo!.png" = "My_Photo_" := by decide
example : sanitizeBaseName "" = "image" := by decide
example : sanitizeBaseName "a!!b.png" = "a_b" := by decide
example : nodeNameOf "archive.tar.gz" = "archive.tar".data := by decide
example : nodeNameOf ".bashrc" = ".bashrc".data := by decide
example : ownerBaseName "my pic.jpg" = "my_pic" := by decide
example : isAllowedKey (some "full/x.webp") = true := by decide
example : isAllowedKey (some "full/../secret") = false := by decide
example : isAllowedKey (some "users/u/x.webp") = false := by decide
example : fullKeyOf "vacation pic.jpg" 17 = "full/17-vacation_pic.webp" := by decide

/-! ### Helper lemmas -/

theorem listStartsWith_iff (p l : List Char) :
    listStartsWith p l = true ↔ p <+: l := by
  induction p generalizing l with
  | nil => simp [listStartsWith, List.nil_prefix]
  | cons c cs ih =>
    cases l with
    | nil => simp [listStartsWith]
    | cons d ds =>
      simp [listStartsWith, List.cons_prefix_cons, ih, Bool.and_eq_true, beq_iff_eq]

theorem containsDotDot_iff (l : List Char) :
    containsDotDot l = true ↔ ['.', '.'] <:+: l := by
  induction l with
  | nil => simp [containsDotDot]
  | cons c cs ih =>
    simp only [containsDotDot, Bool.or_eq_true, listStartsWith_iff, ih,
      List.infix_cons_iff]

theorem mem_replaceRuns (p : Char → Bool) (l : List Char) (flag : Bool) (c : Char)
    (h : c ∈ replaceRuns p flag l) : c = '_' ∨ (c ∈ l ∧ p c = false) := by
  induction l generalizing flag with
  | nil => simp [replaceRuns] at h
  | cons a as ih =>
    cases hpa : p a with
    | true =>
      cases flag with
      | true =>
        have h' : replaceRuns p true (a :: as) = replaceRuns p true as := by
          simp [replaceRuns, hpa]
        rw [h'] at h
        rcases ih true h with h1 | ⟨h2, h3⟩
        · exact Or.inl h1
        · exact Or.inr ⟨List.mem_cons_of_mem a h2, h3⟩
      | false =>
        have h' : replaceRuns p false (a :: as) = '_' :: replaceRuns p true as := by
          simp [replaceRuns, hpa]
        rw [h', List.mem_cons] at h
        rcases h with h1 | h1
        · exact Or.inl h1
        · rcases ih true h1 with h2 | ⟨h3, h4⟩
          · exact Or.inl h2
          · exact Or.inr ⟨List.mem_cons_of_mem a h3, h4⟩
    | false =>
      have h' : replaceRuns p flag (a :: as) = a :: replaceRuns p false as := by
        cases flag <;> simp [replaceRuns, hpa]
      rw [h', List.mem_cons] at h
      rcases h with h1 | h1
      · subst h1
        exact Or.inr ⟨List.mem_cons_self _ _, hpa⟩
      · rcases ih false h1 with h2 | ⟨h3, h4⟩
        · exact Or.inl h2
        · exact Or.inr ⟨List.mem_cons_of_mem a h3, h4⟩

theorem replaceRuns_ne_nil (p : Char → Bool) (c : Char) (cs : List Char) :
    replaceRuns p false (c :: cs) ≠ [] := by
  by_cases hc : p c <;> simp [replaceRuns, hc]

theorem noAdjRun_tail (p : Char → Bool) (c : Char) (cs : List Char)
    (h : noAdjRun p (c :: cs) = true) : noAdjRun p cs = true := by
  cases cs with
  | nil => simp [noAdjRun]
  | cons d ds =>
    simp only [noAdjRun, Bool.and_eq_true] at h
    exact h.2

theorem noAdjRun_head (p : Char → Bool) (c d : Char) (ds : List Char)
    (h : noAdjRun p (c :: d :: ds) = true) (hc : p c = true) : p d = false := by
  simp only [noAdjRun, Bool.and_eq_true, Bool.not_eq_true', Bool.and_eq_false_iff] at h
  rcases h.1 with h1 | h1
  · rw [hc] at h1; cases h1
  · exact h1

theorem replaceRuns_eq_map_of_noAdj (p : Char → Bool) (l : List Char)
    (h : noAdjRun p l = true) :
    replaceRuns p false l = l.map (fun c => if p c then '_' else c) := by
  induction l with
  | nil => rfl
  | cons c cs ih =>
    cases hc : p c with
    | true =>
      cases cs with
      | nil => simp [replaceRuns, hc]
      | cons d ds =>
        have hd : p d = false := noAdjRun_head p c d ds h hc
        have hmap := ih (noAdjRun_tail p c _ h)
        have e1 : replaceRuns p false (c :: d :: ds) = '_' :: replaceRuns p true (d :: ds) := by
          simp [replaceRuns, hc]
        have e2 : replaceRuns p true (d :: ds) = replaceRuns p false (d :: ds) := by
          simp [replaceRuns, hd]
        rw [e1, e2, hmap]
        simp [hc, hd]
    | false =>
      have hmap := ih (noAdjRun_tail p c cs h)
      have e1 : replaceRuns p false (c :: cs) = c :: replaceRuns p false cs := by
        simp [replaceRuns, hc]
      rw [e1, hmap, List.map_cons, hc]
      simp

theorem length_replaceRuns_le (p : Char → Bool) (l : List Char) :
    ∀ flag, (replaceRuns p flag l).length ≤ l.length := by
  induction l with
  | nil =>
    intro flag
    simp [replaceRuns]
  | cons a as ih =>
    intro flag
    cases hpa : p a with
    | true =>
      cases flag with
      | true =>
        have e : replaceRuns p true (a :: as) = replaceRuns p true as := by
          simp [replaceRuns, hpa]
        rw [e]
        exact le_trans (ih true) (Nat.le_succ _)
      | false =>
        have e : replaceRuns p false (a :: as) = '_' :: replaceRuns p true as := by
          simp [replaceRuns, hpa]
        rw [e, List.length_cons, List.length_cons]
        exact Nat.succ_le_succ (ih true)
    | false =>
      have e : replaceRuns p flag (a :: as) = a :: replaceRuns p false as := by
        cases flag <;> simp [replaceRuns, hpa]
      rw [e, List.length_cons, List.length_cons]
      exact Nat.succ_le_succ (ih false)

theorem length_replaceRuns_lt_of_adj (p : Char → Bool) (l : List Char)
    (h : noAdjRun p l = false) :
    (replaceRuns p false l).length < l.length := by
  induction l with
  | nil => simp [noAdjRun] at h
  | cons a as ih =>
    cases as with
    | nil => simp [noAdjRun] at h
    | cons b rest =>
      cases hpa : p a with
      | true =>
        cases hpb : p b with
        | true =>
          have e : replaceRuns p false (a :: b :: rest)
              = '_' :: replaceRuns p true rest := by
            simp [replaceRuns, hpa, hpb]
          rw [e]
          have hle := length_replaceRuns_le p rest true
          simp only [List.length_cons]
          omega
        | false =>
          have htail : noAdjRun p (b :: rest) = false := by
            simpa [noAdjRun, hpa, hpb] using h
          have e : replaceRuns p false (a :: b :: rest)
              = '_' :: replaceRuns p false (b :: rest) := by
            simp [replaceRuns, hpa, hpb]
          rw [e]
          have hlt := ih htail
          simp only [List.length_cons] at hlt ⊢
          omega
      | false =>
        have htail : noAdjRun p (b :: rest) = false := by
          simpa [noAdjRun, hpa] using h
        have e : replaceRuns p false (a :: b :: rest)
            = a :: replaceRuns p false (b :: rest) := by
          simp [replaceRuns, hpa]
        rw [e]
        have hlt := ih htail
        simp only [List.length_cons] at hlt ⊢
        omega

theorem replaceRuns_true_eq_dropWhile (p : Char → Bool) (l : List Char) :
    replaceRuns p true l = replaceRuns p false (l.dropWhile p) := by
  induction l with
  | nil => rfl
  | cons c cs ih =>
    cases hpc : p c with
    | true =>
      have e1 : replaceRuns p true (c :: cs) = replaceRuns p true cs := by
        simp [replaceRuns, hpc]
      have e2 : (c :: cs).dropWhile p = cs.dropWhile p := by
        rw [List.dropWhile_cons, if_pos hpc]
      rw [e1, e2, ih]
    | false =>
      have e1 : replaceRuns p true (c :: cs) = c :: replaceRuns p false cs := by
        simp [replaceRuns, hpc]
      have e2 : (c :: cs).dropWhile p = c :: cs := by
        rw [List.dropWhile_cons, if_neg]
        rw [hpc]
        exact Bool.false_ne_true
      have e3 : replaceRuns p false (c :: cs) = c :: replaceRuns p false cs := by
        simp [replaceRuns, hpc]
      rw [e1, e2, e3]

theorem replaceRuns_eq_specRunCollapse (p : Char → Bool) (l : List Char) :
    replaceRuns p false l = specRunCollapse p l := by
  have H : ∀ n (l : List Char), l.length ≤ n →
      replaceRuns p false l = specRunCollapse p l := by
    intro n
    induction n with
    | zero =>
      intro l hl
      rw [List.eq_nil_of_length_eq_zero (Nat.le_zero.mp hl)]
      simp [replaceRuns, specRunCollapse]
    | succ n ih =>
      intro l hl
      cases l with
      | nil => simp [replaceRuns, specRunCollapse]
      | cons c cs =>
        cases hpc : p c with
        | true =>
          have e1 : replaceRuns p false (c :: cs) = '_' :: replaceRuns p true cs := by
            simp [replaceRuns, hpc]
          have e2 : specRunCollapse p (c :: cs)
              = '_' :: specRunCollapse p (cs.dropWhile p) := by
            simp [specRunCollapse, hpc]
          rw [e1, e2, replaceRuns_true_eq_dropWhile]
          have hle : (cs.dropWhile p).length ≤ cs.length :=
            (List.dropWhile_sublist p).length_le
          simp only [List.length_cons] at hl
          rw [ih (cs.dropWhile p) (by omega)]
        | false =>
          have e1 : replaceRuns p false (c :: cs) = c :: replaceRuns p false cs := by
            simp [replaceRuns, hpc]
          have e2 : specRunCollapse p (c :: cs) = c :: specRunCollapse p cs := by
            simp [specRunCollapse, hpc]
          simp only [List.length_cons] at hl
          rw [e1, e2, ih cs (by omega)]
  exact H l.length l (le_refl _)

theorem replaceRuns_eq_map_iff (p : Char → Bool) (l : List Char) :
    replaceRuns p false l = l.map (fun c => if p c then '_' else c)
      ↔ noAdjRun p l = true := by
  constructor
  · intro he
    cases hx : noAdjRun p l with
    | true => rfl
    | false =>
      have hlt := length_replaceRuns_lt_of_adj p l hx
      rw [he, List.length_map] at hlt
      exact absurd hlt (lt_irrefl _)
  · exact replaceRuns_eq_map_of_noAdj p l

theorem nodeName_subset (b : List Char) : nodeName b ⊆ b := by
  unfold nodeName
  cases b.reverse.findIdx? (fun c => c == '.') with
  | none => exact fun c hc => hc
  | some r =>
    show (if b.length - 1 - r = 0 then b
      else if b = ['.', '.'] then b else List.take (b.length - 1 - r) b) ⊆ b
    by_cases h0 : b.length - 1 - r = 0
    · rw [if_pos h0]
      exact fun c hc => hc
    · rw [if_neg h0]
      by_cases hdd : b = ['.', '.']
      · rw [if_pos hdd]
        exact fun c hc => hc
      · rw [if_neg hdd]
        exact List.take_subset _ _

theorem mem_basenameChars (l : List Char) (c : Char) (h : c ∈ basenameChars l) :
    c ≠ '/' := by
  unfold basenameChars at h
  rw [List.mem_reverse] at h
  have := List.mem_takeWhile_imp h
  simpa [bne_iff_ne] using this

theorem mem_nodeNameOf_ne_slash (o : String) (c : Char) (h : c ∈ nodeNameOf o) :
    c ≠ '/' :=
  mem_basenameChars _ c (nodeName_subset _ h)

/-! ### Staged reductions of the upload handler -/

theorem runPipeline_reject_type (tc : List Nat → Profile → TransResult)
    (put : Nat → PutResult) (f : UploadFile) (stamp : Nat)
    (h1 : f.mimetype ≠ "") (h2 : f.mimetype ∉ allowedTypes) :
    runPipeline tc put (some f) stamp =
      ⟨.failed .validation ("Unsupported content type: " ++ f.mimetype), [], []⟩ := by
  simp only [runPipeline]
  rw [if_pos ⟨h1, h2⟩]

theorem runPipeline_fullErr (tc : List Nat → Profile → TransResult)
    (put : Nat → PutResult) (f : UploadFile) (stamp : Nat) (e : String)
    (hmt : ¬(f.mimetype ≠ "" ∧ f.mimetype ∉ allowedTypes))
    (hfull : tc f.buffer fullProfile = .err e) :
    runPipeline tc put (some f) stamp = ⟨.failed .transcodeFull e, [], []⟩ := by
  simp only [runPipeline, hfull]
  rw [if_neg hmt]

theorem runPipeline_thumbErr (tc : List Nat → Profile → TransResult)
    (put : Nat → PutResult) (f : UploadFile) (stamp : Nat) (fullBuf : List Nat) (e : String)
    (hmt : ¬(f.mimetype ≠ "" ∧ f.mimetype ∉ allowedTypes))
    (hfull : tc f.buffer fullProfile = .ok fullBuf)
    (hput0 : put 0 = .ok)
    (hthumb : tc f.buffer thumbProfile = .err e) :
    runPipeline tc put (some f) stamp =
      ⟨.failed .transcodeThumb e, [fullKeyOf f.originalname stamp],
       [(fullKeyOf f.originalname stamp, fullBuf)]⟩ := by
  simp only [runPipeline, hfull, hput0, hthumb]
  rw [if_neg hmt]

theorem runPipeline_storeThumbErr (tc : List Nat → Profile → TransResult)
    (put : Nat → PutResult) (f : UploadFile) (stamp : Nat)
    (fullBuf thumbBuf : List Nat) (e : String)
    (hmt : ¬(f.mimetype ≠ "" ∧ f.mimetype ∉ allowedTypes))
    (hfull : tc f.buffer fullProfile = .ok fullBuf)
    (hput0 : put 0 = .ok)
    (hthumb : tc f.buffer thumbProfile = .ok thumbBuf)
    (hput1 : put 1 = .err e) :
    runPipeline tc put (some f) stamp =
      ⟨.failed .storeThumb e,
       [fullKeyOf f.originalname stamp, thumbKeyOf f.originalname stamp],
       [(fullKeyOf f.originalname stamp, fullBuf)]⟩ := by
  simp only [runPipeline, hfull, hput0, hthumb, hput1]
  rw [if_neg hmt]

theorem runPipeline_no_validation_failure (tc : List Nat → Profile → TransResult)
    (put : Nat → PutResult) (f : UploadFile) (stamp : Nat)
    (hmt : ¬(f.mimetype ≠ "" ∧ f.mimetype ∉ allowedTypes)) (c : String) :
    (runPipeline tc put (some f) stamp).status ≠ .failed .validation c := by
  simp only [runPipeline]
  rw [if_neg hmt]
  cases h1 : tc f.buffer fullProfile with
  | err e => simp
  | ok fb =>
    cases h2 : put 0 with
    | err e => simp
    | ok =>
      cases h3 : tc f.buffer thumbProfile with
      | err e => simp
      | ok tb =>
        cases h4 : put 1 with
        | err e => simp
        | ok => simp

theorem mimetype_ok_of_allowed (f : UploadFile)
    (hmt : f.mimetype = "" ∨ f.mimetype ∈ allowedTypes) :
    ¬(f.mimetype ≠ "" ∧ f.mimetype ∉ allowedTypes) := by
  rcases hmt with h | h
  · exact fun hc => hc.1 h
  · exact fun hc => hc.2 h

/-! ### Claims -/

/-- C1 (confirmed): if the full derivative was transcoded and stored
successfully and then the thumbnail's transcode or storage put fails, the
pipeline returns a failure tagged `transcodeThumb` or `storeThumb`, and
the already-stored full object is exactly what remains persisted — the
handler performs no rollback and no delete, so `stored` still holds the
full-image object. -/
theorem C1_thumb_failure_preserves_full (tc : List Nat → Profile → TransResult)
    (put : Nat → PutResult) (f : UploadFile) (stamp : Nat) (fullBuf : List Nat)
    (hmt : f.mimetype = "" ∨ f.mimetype ∈ allowedTypes)
    (hfull : tc f.buffer fullProfile = .ok fullBuf)
    (hput0 : put 0 = .ok)
    (hthumb : (∃ e, tc f.buffer thumbProfile = .err e) ∨ (∃ e, put 1 = .err e)) :
    (∃ e, (runPipeline tc put (some f) stamp).status = .failed .transcodeThumb e ∨
          (runPipeline tc put (some f) stamp).status = .failed .storeThumb e) ∧
    (runPipeline tc put (some f) stamp).stored =
      [(fullKeyOf f.originalname stamp, fullBuf)] := by
  have hmt' := mimetype_ok_of_allowed f hmt
  cases h3 : tc f.buffer thumbProfile with
  | err e =>
    have key := runPipeline_thumbErr tc put f stamp fullBuf e hmt' hfull hput0 h3
    exact ⟨⟨e, Or.inl (by rw [key])⟩, by rw [key]⟩
  | ok tb =>
    rcases hthumb with ⟨e, he⟩ | ⟨e, he⟩
    · rw [he] at h3; cases h3
    · have key := runPipeline_storeThumbErr tc put f stamp fullBuf tb e hmt' hfull hput0 h3 he
      exact ⟨⟨e, Or.inr (by rw [key])⟩, by rw [key]⟩

/-- Witness for C1 at a concrete input: a transcoder that fails on the
thumbnail profile, an always-succeeding storage port. -/
theorem C1_thumb_failure_preserves_full_witness :
    (∃ e, (runPipeline tcThumbFails putOk (some ⟨"a.png", "image/png", [7]⟩) 3).status
            = .failed .transcodeThumb e ∨
          (runPipeline tcThumbFails putOk (some ⟨"a.png", "image/png", [7]⟩) 3).status
            = .failed .storeThumb e) ∧
    (runPipeline tcThumbFails putOk (some ⟨"a.png", "image/png", [7]⟩) 3).stored =
      [(fullKeyOf "a.png" 3, [7])] :=
  C1_thumb_failure_preserves_full tcThumbFails putOk ⟨"a.png", "image/png", [7]⟩ 3 [7]
    (Or.inr (by decide)) (by decide) (by decide)
    (Or.inl ⟨"thumbnail decode failed", by decide⟩)

/-- C3 (corrected), counterexample: a zero-byte upload is NOT rejected by
validation.  With a transcoder that fails on empty input (as sharp does)
the pipeline fails at the `transcodeFull` stage — not at the validation
stage as the claim states — although indeed no put call is made. -/
theorem C3_zero_byte_cex :
    (runPipeline tcEmptyFails putOk (some ⟨"a.png", "image/png", []⟩) 0).status
        = .failed .transcodeFull "Input buffer is empty" ∧
    Stage.transcodeFull ≠ Stage.validation ∧
    (runPipeline tcEmptyFails putOk (some ⟨"a.png", "image/png", []⟩) 0).putCalls = [] := by
  refine ⟨?_, by decide, ?_⟩ <;> decide

/-- C3 (corrected), amended: a present but zero-byte upload passes the
handler's validation checks (which only test file presence and declared
content type); the pipeline proceeds and fails at the full-image
transcode with the decode error, and no storage put call is made. -/
theorem C3_zero_byte_amended (tc : List Nat → Profile → TransResult)
    (put : Nat → PutResult) (f : UploadFile) (stamp : Nat)
    (hbuf : f.buffer = [])
    (hmt : f.mimetype = "" ∨ f.mimetype ∈ allowedTypes)
    (hdec : ∀ p, ∃ e, tc [] p = .err e) :
    (∃ e, (runPipeline tc put (some f) stamp).status = .failed .transcodeFull e) ∧
    (runPipeline tc put (some f) stamp).putCalls = [] ∧
    (runPipeline tc put (some f) stamp).stored = [] := by
  have hmt' := mimetype_ok_of_allowed f hmt
  obtain ⟨e, he⟩ := hdec fullProfile
  have hfull : tc f.buffer fullProfile = .err e := by rw [hbuf]; exact he
  have key := runPipeline_fullErr tc put f stamp e hmt' hfull
  exact ⟨⟨e, by rw [key]⟩, by rw [key], by rw [key]⟩

/-- Witness for C3's amended theorem at a concrete zero-byte upload. -/
theorem C3_zero_byte_amended_witness :
    (∃ e, (runPipeline tcEmptyFails putOk (some ⟨"a.png", "image/png", []⟩) 0).status
            = .failed .transcodeFull e) ∧
    (runPipeline tcEmptyFails putOk (some ⟨"a.png", "image/png", []⟩) 0).putCalls = [] ∧
    (runPipeline tcEmptyFails putOk (some ⟨"a.png", "image/png", []⟩) 0).stored = [] :=
  C3_zero_byte_amended tcEmptyFails putOk ⟨"a.png", "image/png", []⟩ 0 rfl
    (Or.inr (by decide)) (fun p => ⟨"Input buffer is empty", rfl⟩)

/-- C6 (confirmed): a non-empty declared content type outside the
allow-list is rejected with the `Unsupported content type` validation
failure and no put call is made; an empty declared content type is never
rejected by validation — the request proceeds to the transcoder, whose
own decode failure is the only remaining guard. -/
theorem C6_content_type_validation (tc : List Nat → Profile → TransResult)
    (put : Nat → PutResult) (f : UploadFile) (stamp : Nat) :
    (f.mimetype ≠ "" → f.mimetype ∉ allowedTypes →
      (runPipeline tc put (some f) stamp).status
          = .failed .validation ("Unsupported content type: " ++ f.mimetype) ∧
      (runPipeline tc put (some f) stamp).putCalls = []) ∧
    (f.mimetype = "" →
      ∀ c, (runPipeline tc put (some f) stamp).status ≠ .failed .validation c) := by
  constructor
  · intro h1 h2
    have key := runPipeline_reject_type tc put f stamp h1 h2
    exact ⟨by rw [key], by rw [key]⟩
  · intro h c
    exact runPipeline_no_validation_failure tc put f stamp (fun hc => hc.1 h) c

/-- Witness for C6 at a concrete input with declared type `text/html`. -/
theorem C6_content_type_validation_witness :
    (runPipeline tcOk putOk (some ⟨"a.png", "text/html", [1]⟩) 0).status
        = .failed .validation "Unsupported content type: text/html" ∧
    (runPipeline tcOk putOk (some ⟨"a.png", "text/html", [1]⟩) 0).putCalls = [] :=
  (C6_content_type_validation tcOk putOk ⟨"a.png", "text/html", [1]⟩ 0).1
    (by decide) (by decide)

/-- C7 (confirmed, via the spec-modelled multer gate): an upload whose
byte length exceeds the configured 15 MiB limit is rejected as
`PayloadTooLarge` before the handler runs, with no put calls. -/
theorem C7_payload_too_large (tc : List Nat → Profile → TransResult)
    (put : Nat → PutResult) (f : UploadFile) (stamp : Nat)
    (h : f.buffer.length > maxFileSize) :
    gatedPipeline tc put (some f) stamp =
      ⟨.failed .validation "PayloadTooLarge", [], []⟩ := by
  simp only [gatedPipeline]
  rw [if_neg]
  simp only [multerAccepts, decide_eq_true_eq]
  omega

/-- Witness for C7 at a concrete buffer one byte over the limit. -/
theorem C7_payload_too_large_witness :
    gatedPipeline tcOk putOk
        (some ⟨"big.png", "image/png", List.replicate (maxFileSize + 1) 0⟩) 0 =
      ⟨.failed .validation "PayloadTooLarge", [], []⟩ :=
  C7_payload_too_large tcOk putOk ⟨"big.png", "image/png", List.replicate (maxFileSize + 1) 0⟩ 0
    (by simp)

/-- C2 (corrected), counterexample: the thumbnail sharp call omits
`withoutEnlargement`, so a 100-pixel-wide source is enlarged to width
300 — the output dimensions do not equal the source dimensions even
though the source width is below the profile's maximum. -/
theorem C2_thumb_upscale_cex :
    resizeDims 100 100 thumbProfile = (300, 300) ∧
    100 ≤ 300 ∧ resizeDims 100 100 thumbProfile ≠ (100, 100) :=
  ⟨by decide, by decide, by decide⟩

/-- C2 (corrected), amended: the output width never exceeds the
profile's maximum for either tier; the full profile (which passes
`withoutEnlargement: true`) leaves a source of width at most 1080
unchanged; the thumbnail call always resizes to width exactly 300,
enlarging narrower sources. -/
theorem C2_resize_amended (w h : Nat) (_hw : 0 < w) :
    (resizeDims w h fullProfile).1 ≤ 1080 ∧
    (w ≤ 1080 → resizeDims w h fullProfile = (w, h)) ∧
    (resizeDims w h thumbProfile).1 = 300 := by
  have efull : resizeDims w h fullProfile
      = if w ≤ 1080 then (w, h) else (1080, (2 * h * 1080 + w) / (2 * w)) := by
    simp [resizeDims, fullProfile]
  have ethumb : resizeDims w h thumbProfile = (300, (2 * h * 300 + w) / (2 * w)) := by
    simp [resizeDims, thumbProfile]
  refine ⟨?_, ?_, ?_⟩
  · rw [efull]
    by_cases hle : w ≤ 1080
    · rw [if_pos hle]
      exact hle
    · rw [if_neg hle]
  · intro hle
    rw [efull, if_pos hle]
  · rw [ethumb]

/-- Witness for C2's amended theorem at a concrete 500×400 source. -/
theorem C2_resize_amended_witness :
    (resizeDims 500 400 fullProfile).1 ≤ 1080 ∧
    (500 ≤ 1080 → resizeDims 500 400 fullProfile = (500, 400)) ∧
    (resizeDims 500 400 thumbProfile).1 = 300 :=
  C2_resize_amended 500 400 (by decide)

/-- C4 (corrected), counterexample: the source regex
`[^a-zA-Z0-9._-]+` replaces a RUN of disallowed characters with a single
underscore, so `"a!!b.png"` sanitizes to `"a_b"`, not to the `"a__b"`
demanded by per-character replacement as the claim words it. -/
theorem C4_per_char_cex :
    sanitizeBaseName "a!!b.png" = "a_b" ∧
    specPerCharSanitize "a!!b.png" = "a__b" ∧
    sanitizeBaseName "a!!b.png" ≠ specPerCharSanitize "a!!b.png" :=
  ⟨by decide, by decide, by decide⟩

theorem stringMk_ne_empty (l : List Char) (h : l ≠ []) : (⟨l⟩ : String) ≠ "" := by
  intro he
  apply h
  have h2 : l = "".data := congrArg String.data he
  rwa [show ("".data : List Char) = [] from rfl] at h2

/-- C4 (corrected), amended: for EVERY original filename the derived
base name is the extension-less name with every maximal run of
characters outside `[A-Za-z0-9._-]` collapsed to one `'_'` (stated as
equality with the independently written `specRunCollapse`); an empty
extension-less name defaults to `"image"`; the result is never empty and
contains only characters of the allowed class; and per-character
replacement — the original claim's wording — agrees with the sanitizer
exactly when the name has no two adjacent disallowed characters. -/
theorem C4_sanitize_amended (o : String) :
    sanitizeBaseName o ≠ "" ∧
    (∀ c ∈ (sanitizeBaseName o).data, isSafeChar c = true) ∧
    (nodeNameOf o = [] → sanitizeBaseName o = "image") ∧
    (nodeNameOf o ≠ [] →
      (sanitizeBaseName o).data
        = specRunCollapse (fun c => !isSafeChar c) (nodeNameOf o)) ∧
    (nodeNameOf o ≠ [] →
      ((sanitizeBaseName o).data
          = (nodeNameOf o).map (fun c => if isSafeChar c then c else '_')
        ↔ noAdjRun (fun c => !isSafeChar c) (nodeNameOf o) = true)) := by
  have emap : ∀ l : List Char,
      l.map (fun c => if isSafeChar c then c else '_')
        = l.map (fun c => if (!isSafeChar c) = true then '_' else c) := by
    intro l
    apply List.map_congr_left
    intro c _
    cases hsc : isSafeChar c <;> simp [hsc]
  refine ⟨?_, ?_, ?_, ?_, ?_⟩
  · by_cases hnil : nodeNameOf o = []
    · have e : sanitizeBaseName o = "image" := by
        simp only [sanitizeBaseName, hnil, if_pos]
        decide
      rw [e]
      decide
    · obtain ⟨c, cs, hcons⟩ := List.exists_cons_of_ne_nil hnil
      have e : sanitizeBaseName o
          = ⟨replaceRuns (fun c => !isSafeChar c) false (c :: cs)⟩ := by
        simp only [sanitizeBaseName]
        rw [if_neg hnil, hcons]
      rw [e]
      exact stringMk_ne_empty _ (replaceRuns_ne_nil _ c cs)
  · intro c hc
    have hmem : c ∈ replaceRuns (fun c => !isSafeChar c) false
        (if nodeNameOf o = [] then "image".data else nodeNameOf o) := hc
    rcases mem_replaceRuns _ _ _ _ hmem with h1 | ⟨_, h2⟩
    · rw [h1]; decide
    · simpa using h2
  · intro hnil
    simp only [sanitizeBaseName, hnil, if_pos]
    decide
  · intro hnil
    have e : (sanitizeBaseName o).data
        = replaceRuns (fun c => !isSafeChar c) false (nodeNameOf o) := by
      simp only [sanitizeBaseName]
      rw [if_neg hnil]
    rw [e, replaceRuns_eq_specRunCollapse]
  · intro hnil
    have e : (sanitizeBaseName o).data
        = replaceRuns (fun c => !isSafeChar c) false (nodeNameOf o) := by
      simp only [sanitizeBaseName]
      rw [if_neg hnil]
    rw [e, emap (nodeNameOf o)]
    exact replaceRuns_eq_map_iff _ _

/-- Witness for C4's amended theorem at the spec's own example
`"My Photo!.png"`. -/
theorem C4_sanitize_amended_witness :
    sanitizeBaseName "My Photo!.png" ≠ "" ∧
    (∀ c ∈ (sanitizeBaseName "My Photo!.png").data, isSafeChar c = true) ∧
    (nodeNameOf "My Photo!.png" = [] → sanitizeBaseName "My Photo!.png" = "image") ∧
    (nodeNameOf "My Photo!.png" ≠ [] →
      (sanitizeBaseName "My Photo!.png").data
        = specRunCollapse (fun c => !isSafeChar c) (nodeNameOf "My Photo!.png")) ∧
    (nodeNameOf "My Photo!.png" ≠ [] →
      ((sanitizeBaseName "My Photo!.png").data
          = (nodeNameOf "My Photo!.png").map (fun c => if isSafeChar c then c else '_')
        ↔ noAdjRun (fun c => !isSafeChar c) (nodeNameOf "My Photo!.png") = true)) :=
  C4_sanitize_amended "My Photo!.png"

/-- C5 (corrected), counterexample: in owner-scoped mode the random hex
suffix `rid` is placed BETWEEN the timestamp and the name
(`${stamp}-${rid}-${baseName}`), not appended after the sanitized name as
the claim words it. -/
theorem C5_hex_position_cex :
    ownerKeyBase "u1" "photo.png" 5 "abc123" = "users/u1/5-abc123-photo" ∧
    ownerKeyBaseClaimed "u1" "photo.png" 5 "abc123" = "users/u1/5-photo-abc123" ∧
    (ownerKeys "u1" "photo.png" 5 "abc123").1
      ≠ ownerKeyBaseClaimed "u1" "photo.png" 5 "abc123" ++ ".full.webp" :=
  ⟨by decide, by decide, by decide⟩

/-- C5 (corrected), amended: unowned keys have the form
`full/{stamp}-{sanitizedBase}.webp` and
`thumbnails/{stamp}-{sanitizedBase}.webp`; owner-scoped keys are
`users/{ownerId}/{stamp}-{hex}-{name}.full.webp` and
`...{stamp}-{hex}-{name}.thumb.webp` — the random hex suffix sits between
the millisecond timestamp and the (whitespace-sanitized) name — and
neither base name can contain a `'/'`, so the tier or owner prefix of a
produced key is unambiguous. -/
theorem C5_key_shapes_amended (o u rid : String) (stamp : Nat) :
    fullKeyOf o stamp
      = "full/" ++ toString stamp ++ "-" ++ sanitizeBaseName o ++ ".webp" ∧
    thumbKeyOf o stamp
      = "thumbnails/" ++ toString stamp ++ "-" ++ sanitizeBaseName o ++ ".webp" ∧
    (ownerKeys u o stamp rid).1
      = "users/" ++ u ++ "/" ++ toString stamp ++ "-" ++ rid ++ "-"
          ++ ownerBaseName o ++ ".full.webp" ∧
    (ownerKeys u o stamp rid).2
      = "users/" ++ u ++ "/" ++ toString stamp ++ "-" ++ rid ++ "-"
          ++ ownerBaseName o ++ ".thumb.webp" ∧
    '/' ∉ (sanitizeBaseName o).data ∧
    '/' ∉ (ownerBaseName o).data := by
  refine ⟨?_, ?_, ?_, ?_, ?_, ?_⟩
  · simp [fullKeyOf, fileNameOf, String.append_assoc]
  · simp [thumbKeyOf, fileNameOf, String.append_assoc]
  · simp [ownerKeys, ownerKeyBase, String.append_assoc]
  · simp [ownerKeys, ownerKeyBase, String.append_assoc]
  · intro hmem
    rcases mem_replaceRuns _ _ _ _ hmem with h1 | ⟨_, h2⟩
    · cases h1
    · simp [isSafeChar] at h2
  · intro hmem
    rcases mem_replaceRuns _ _ _ _ hmem with h1 | ⟨h2, _⟩
    · cases h1
    · exact mem_nodeNameOf_ne_slash o '/' h2 rfl

/-- C8 (confirmed): `isAllowedKey` accepts a string key exactly when it
has no `".."` infix and begins with one of the allow-listed prefixes
`full/` or `thumbnails/`; a non-string key is always rejected. -/
theorem C8_isAllowedKey_characterization (k : String) :
    (isAllowedKey (some k) = true ↔
      ¬(['.', '.'] <:+: k.data) ∧
      ("full/".data <+: k.data ∨ "thumbnails/".data <+: k.data)) ∧
    isAllowedKey none = false := by
  constructor
  · simp only [isAllowedKey]
    by_cases hdd : containsDotDot k.data
    · rw [if_pos hdd]
      have hi : ['.', '.'] <:+: k.data := (containsDotDot_iff k.data).mp hdd
      simp [hi]
    · rw [if_neg hdd]
      have hni : ¬(['.', '.'] <:+: k.data) :=
        fun hi => hdd ((containsDotDot_iff k.data).mpr hi)
      simp [ALLOWED_PREFIXES, listStartsWith_iff, hni]
  · rfl

/-- C9 (corrected), counterexample: an internal storage failure's own
message is surfaced verbatim to the user (`err.message`), so the
user-visible error is NOT a generic message — it reveals the specific
internal cause. -/
theorem C9_internal_cause_leaks_cex :
    handlerResponse (runPipeline tcOk putSecondFails (some ⟨"a.png", "image/png", [7]⟩) 0)
      = (500, .failure "R2 auth failed: secret-access-key") ∧
    "R2 auth failed: secret-access-key" ≠ "Server error" :=
  ⟨by decide, by decide⟩

/-- C9 (corrected), amended: validation failures surface their specific
reason with status 400; internal (non-validation) failures surface the
underlying error's own message with status 500, falling back to the
generic `"Server error"` only when that message is empty. -/
theorem C9_error_surface_amended (tc : List Nat → Profile → TransResult)
    (put : Nat → PutResult) (f : UploadFile) (stamp : Nat) (m : String)
    (hm : m ≠ "") :
    ((f.mimetype = "" ∨ f.mimetype ∈ allowedTypes) →
      (∀ p, ∃ out, tc f.buffer p = .ok out) →
      put 0 = .ok → put 1 = .err m →
      handlerResponse (runPipeline tc put (some f) stamp) = (500, .failure m)) ∧
    (f.mimetype ≠ "" → f.mimetype ∉ allowedTypes →
      handlerResponse (runPipeline tc put (some f) stamp)
        = (400, .failure ("Unsupported content type: " ++ f.mimetype))) := by
  constructor
  · intro hmt htc hput0 hput1
    obtain ⟨fb, hfb⟩ := htc fullProfile
    obtain ⟨tb, htb⟩ := htc thumbProfile
    rw [runPipeline_storeThumbErr tc put f stamp fb tb m
      (mimetype_ok_of_allowed f hmt) hfb hput0 htb hput1]
    simp [handlerResponse, hm]
  · intro h1 h2
    rw [runPipeline_reject_type tc put f stamp h1 h2]
    simp [handlerResponse]

/-- Witness for C9's amended theorem: a concrete run whose second put
fails with a non-empty internal message. -/
theorem C9_error_surface_amended_witness :
    handlerResponse (runPipeline tcOk putSecondFails (some ⟨"a.png", "image/png", [7]⟩) 0)
      = (500, .failure "R2 auth failed: secret-access-key") :=
  (C9_error_surface_amended tcOk putSecondFails ⟨"a.png", "image/png", [7]⟩ 0
      "R2 auth failed: secret-access-key" (by decide)).1
    (Or.inr (by decide)) (fun p => ⟨[7], rfl⟩) rfl rfl

/-- C10 (corrected), counterexample: a request whose key is the empty
string lies outside the requester's `users/u1/` prefix yet is answered
with 400 (`Missing "key"`), not with 403 Forbidden as the claim states
for every out-of-prefix key. -/
theorem C10_empty_key_cex :
    downloadToken ⟨some "u1", some ""⟩ = .badRequest "Missing \"key\"" ∧
    TokenResp.badRequest "Missing \"key\"" ≠ .forbidden ∧
    listStartsWith "users/u1/".data "".data = false :=
  ⟨by decide, by decide, by decide⟩

/-- C10 (corrected), amended: a token is issued only when the
`X-User-Id` header is present (and non-empty) and the requested key
starts with `users/<that user id>/`; a request with a NON-EMPTY key
outside the requester's own prefix is answered 403 with no token; a
missing or empty key is answered 400; a request without (or with an
empty) user-id header is answered 401. -/
theorem C10_download_token_amended (req : TokenReq) :
    (∀ uid key sc, downloadToken req = .issued uid key sc →
      getUserId req.userIdHeader = some uid ∧ req.bodyKey = some key ∧
      sc = "read:image" ∧
      listStartsWith ("users/" ++ uid ++ "/").data key.data = true) ∧
    (getUserId req.userIdHeader = none → downloadToken req = .unauthorized) ∧
    (∀ uid key, getUserId req.userIdHeader = some uid → req.bodyKey = some key →
      key ≠ "" → listStartsWith ("users/" ++ uid ++ "/").data key.data = false →
      downloadToken req = .forbidden) := by
  refine ⟨?_, ?_, ?_⟩
  · intro uid key sc h
    cases hu : getUserId req.userIdHeader with
    | none =>
      simp only [downloadToken, hu] at h
      cases h
    | some u =>
      cases hk : req.bodyKey with
      | none =>
        simp only [downloadToken, hu, hk] at h
        cases h
      | some k =>
        simp only [downloadToken, hu, hk] at h
        by_cases hke : k = ""
        · rw [if_pos hke] at h
          cases h
        · rw [if_neg hke] at h
          by_cases hsw : listStartsWith ("users/" ++ u ++ "/").data k.data = true
          · rw [if_pos hsw] at h
            injection h with e1 e2 e3
            subst e1
            subst e2
            subst e3
            exact ⟨rfl, rfl, rfl, hsw⟩
          · rw [if_neg hsw] at h
            cases h
  · intro h
    simp only [downloadToken, h]
  · intro uid key hu hk hke hsw
    simp only [downloadToken, hu, hk]
    rw [if_neg hke]
    rw [if_neg (show ¬(listStartsWith ("users/" ++ uid ++ "/").data key.data = true) by
      rw [hsw]; exact Bool.false_ne_true)]

/-- Witness for C10's amended theorem: a request for another user's key
is answered 403. -/
theorem C10_download_token_amended_witness :
    downloadToken ⟨some "u1", some "users/u2/a.webp"⟩ = .forbidden :=
  (C10_download_token_amended ⟨some "u1", some "users/u2/a.webp"⟩).2.2
    "u1" "users/u2/a.webp" (by decide) rfl (by decide) (by decide)

/-- Witness for C5's amended theorem at concrete inputs. -/
theorem C5_key_shapes_amended_witness :
    fullKeyOf "a b.png" 7
      = "full/" ++ toString 7 ++ "-" ++ sanitizeBaseName "a b.png" ++ ".webp" ∧
    thumbKeyOf "a b.png" 7
      = "thumbnails/" ++ toString 7 ++ "-" ++ sanitizeBaseName "a b.png" ++ ".webp" ∧
    (ownerKeys "u1" "a b.png" 7 "ff00aa").1
      = "users/" ++ "u1" ++ "/" ++ toString 7 ++ "-" ++ "ff00aa" ++ "-"
          ++ ownerBaseName "a b.png" ++ ".full.webp" ∧
    (ownerKeys "u1" "a b.png" 7 "ff00aa").2
      = "users/" ++ "u1" ++ "/" ++ toString 7 ++ "-" ++ "ff00aa" ++ "-"
          ++ ownerBaseName "a b.png" ++ ".thumb.webp" ∧
    '/' ∉ (sanitizeBaseName "a b.png").data ∧
    '/' ∉ (ownerBaseName "a b.png").data :=
  C5_key_shapes_amended "a b.png" "u1" "ff00aa" 7

/-- Witness for C8 at a concrete allowed and a concrete refused key. -/
theorem C8_isAllowedKey_characterization_witness :
    ((isAllowedKey (some "full/x.webp") = true ↔
      ¬(['.', '.'] <:+: "full/x.webp".data) ∧
      ("full/".data <+: "full/x.webp".data ∨ "thumbnails/".data <+: "full/x.webp".data)) ∧
    isAllowedKey none = false) :=
  C8_isAllowedKey_characterization "full/x.webp"
